import Mathlib

/-!
Verification of the vimail terminal mail client (Go) against its
natural-language specification.

The repository carries two generations of the UI code side by side:
the `vimail` files (`internal/ui/app.go`, `internal/ui/composer.go`,
`internal/ui/inbox.go`) and the earlier `veloci_mail` files (the app
model, composer, inbox variants found next to them).  Both are embedded
here; the `Vimail` and `Veloci` namespaces hold the variant-specific
top-level models, while shared code (`internal/email/*`, the reader,
the composer field handlers, which are textually identical in both
generations) lives at top level.

Go strings are embedded as `List Char` (one `Char` per byte position;
all string indices in the embedded code are produced by the code
itself, so byte/rune discrepancies never arise on the modelled paths).
Go `int` values that the code keeps non-negative by construction
(cursor positions, line indices) are `Nat`; the inbox `selected` index,
which the Go code lets go negative transiently, is `Int`.
Go slice-bound panics are modelled by `Option` where a claim talks
about them, and by clamping (`List.take`/`List.getD`) elsewhere, on
paths the invariants keep in bounds.
-/

abbrev Str := List Char

/-- The whitespace class of Go `strings.TrimSpace` (ASCII part). -/
def isGoSpace (c : Char) : Bool :=
  c = ' ' || c = '\t' || c = '\n' || c = '\x0b' || c = '\x0c' || c = '\r'

/-- Go `strings.TrimSpace`. -/
def trimSpace (s : Str) : Str :=
  ((s.dropWhile isGoSpace).reverse.dropWhile isGoSpace).reverse

/-- Go `strings.Split(s, sep)` for a one-character separator. -/
def splitOnChar (sep : Char) : Str → List Str
  | [] => [[]]
  | c :: rest =>
    if c = sep then [] :: splitOnChar sep rest
    else
      match splitOnChar sep rest with
      | [] => [[c]]
      | h :: t => (c :: h) :: t

/-- Go `strings.Split(s, "\n")`. -/
def splitNl (s : Str) : List Str := splitOnChar '\n' s

/-- Go `strings.Join(lines, "\n")`. -/
def joinNl : List Str → Str
  | [] => []
  | [l] => l
  | l :: ls => l ++ '\n' :: joinNl ls

/-- Go `strings.ReplaceAll(s, string(old), string(new))` for one-character
patterns (each occurrence is a single byte, so this is a pointwise map). -/
def replaceAllChar (old new : Char) (s : Str) : Str :=
  s.map (fun c => if c = old then new else c)

/-- Go `strings.Contains(s, "  ")`: two adjacent spaces occur in `s`. -/
def hasDoubleSpace : Str → Bool
  | a :: b :: rest => if a = ' ' ∧ b = ' ' then true else hasDoubleSpace (b :: rest)
  | _ => false

/-- Go `strings.ReplaceAll(s, "  ", " ")`: replace non-overlapping
occurrences of two spaces by one, scanning left to right. -/
def replaceDoubleSpace : Str → Str
  | [] => []
  | [a] => [a]
  | a :: b :: rest =>
    if a = ' ' ∧ b = ' ' then ' ' :: replaceDoubleSpace rest
    else a :: replaceDoubleSpace (b :: rest)

/-- The loop in `SanitizeSubject`:
`for strings.Contains(subject, "  ") { subject = strings.ReplaceAll(subject, "  ", " ") }`.
Terminates because each replacement pass strictly shortens the string. -/
def collapseSpaces (s : Str) : Str :=
  if h : hasDoubleSpace s = true then
    collapseSpaces (replaceDoubleSpace s)
  else s
termination_by s.length
decreasing_by
  have hle : ∀ t : Str, (replaceDoubleSpace t).length ≤ t.length := by
    intro t
    induction t using replaceDoubleSpace.induct with
    | case1 => simp [replaceDoubleSpace]
    | case2 a => simp [replaceDoubleSpace]
    | case3 a b rest hab ih =>
      simp only [replaceDoubleSpace, if_pos hab, List.length_cons]
      omega
    | case4 a b rest hab ih =>
      simp only [replaceDoubleSpace, if_neg hab, List.length_cons]
      simp only [List.length_cons] at ih
      omega
  revert h
  induction s using replaceDoubleSpace.induct with
  | case1 => simp [hasDoubleSpace]
  | case2 a => simp [hasDoubleSpace]
  | case3 a b rest hab ih =>
    intro _
    have := hle rest
    simp only [replaceDoubleSpace, if_pos hab, List.length_cons]
    omega
  | case4 a b rest hab ih =>
    intro hd
    rw [hasDoubleSpace, if_neg hab] at hd
    have hlt := ih hd
    simp only [List.length_cons] at hlt
    simp only [replaceDoubleSpace, if_neg hab, List.length_cons]
    omega

/-- `email.SanitizeSubject` (internal/email/compose.go): replace newline,
carriage return and tab by a space, collapse runs of double spaces, trim. -/
def SanitizeSubject (subject : Str) : Str :=
  let subject := replaceAllChar '\n' ' ' subject
  let subject := replaceAllChar '\r' ' ' subject
  let subject := replaceAllChar '\t' ' ' subject
  let subject := collapseSpaces subject
  trimSpace subject

/-- Go `strings.ToLower` (ASCII part; the subjects compared here are ASCII). -/
def toLowerStr (s : Str) : Str := s.map Char.toLower

/-- `email.PrepareReplySubject` (internal/email/compose.go): trim, then add
a `Re: ` prefix unless one (case-insensitively) is already there. -/
def PrepareReplySubject (originalSubject : Str) : Str :=
  let subject := trimSpace originalSubject
  if List.isPrefixOf ("re:".toList) (toLowerStr subject) then subject
  else ("Re: ".toList) ++ subject

/-- `email.Message` (internal/email/message.go).  `time.Time` is opaque to
the core; it is embedded as an abstract instant (`Nat`), consumed only
through an externally supplied formatting function. -/
structure Message where
  id : Str
  threadId : Str
  fromAddr : Str
  toAddr : Str
  subject : Str
  date : Nat
  body : Str
  snippet : Str
  labels : List Str
  unread : Bool
deriving DecidableEq, Repr

/-- Go `strings.Trim(s, string(c))`: drop `c` from both ends. -/
def trimChar (c : Char) (s : Str) : Str :=
  ((s.dropWhile (· = c)).reverse.dropWhile (· = c)).reverse

/-- `Message.GetDisplayFrom` (internal/email/message.go). -/
def Message.getDisplayFrom (m : Message) : Str :=
  if m.fromAddr = [] then "Unknown Sender".toList
  else
    let parts := splitOnChar '<' m.fromAddr
    if parts.length > 1 then
      let name := trimSpace (parts.headI)
      if name ≠ [] ∧ name ≠ ['"', '"'] then trimChar '"' name
      else m.fromAddr
    else m.fromAddr

/-- `Message.GetShortSubject` (internal/email/message.go).  The Go code
slices `m.Subject[:maxLength-3]` with no guard; when `maxLength < 3` and
the subject is longer than `maxLength` that index is negative and the
slice panics — modelled as `none`. -/
def Message.getShortSubject (m : Message) (maxLength : Nat) : Option Str :=
  if m.subject.length ≤ maxLength then some m.subject
  else if maxLength < 3 then none
  else some (m.subject.take (maxLength - 3) ++ ("...".toList))

/-- `Message.IsUnread` (internal/email/message.go). -/
def Message.isUnread (m : Message) : Bool := m.unread

/-- `email.ComposeData` (internal/email/compose.go). -/
structure ComposeData where
  dataTo : Str
  dataSubject : Str
  dataBody : Str
deriving DecidableEq, Repr

/-- `ComposeData.Validate` (internal/email/compose.go).  Returns the error
message, or `none` on success.  `mail.ParseAddress` is Go standard-library
code outside this repository; it is abstracted as the parameter
`validAddr`, an arbitrary address-syntax test. -/
def ComposeData.validate (validAddr : Str → Bool) (c : ComposeData) : Option Str :=
  if c.dataTo = [] then some ("recipient (To) is required".toList)
  else if validAddr c.dataTo = false then some (("invalid email address: ".toList) ++ c.dataTo)
  else if c.dataSubject = [] then some ("subject is required".toList)
  else if c.dataBody = [] then some ("message body is required".toList)
  else none

/-- `ui.ComposerField` (internal/ui/composer.go). -/
inductive ComposerField
  | toField
  | subjectField
  | bodyField
deriving DecidableEq, Repr

/-- `ui.ComposerModelImpl` (internal/ui/composer.go; the identical state
record appears in the veloci_mail composer file).  The `emailClient`
pointer is the external `MailService` capability and carries no state the
core reads, so it is not embedded; `err` holds the message text of the
stored error. -/
structure Composer where
  fromEmail : Str
  to2 : Str
  subject : Str
  body : List Str
  currentField : ComposerField
  cursorPos : Nat
  bodyLine : Nat
  width : Int
  height : Int
  sending : Bool
  sent : Bool
  cancelled : Bool
  err : Option Str
deriving DecidableEq, Repr

/-- `ui.NewComposerModelImpl` (internal/ui/composer.go). -/
def NewComposerModelImpl (fromEmail : Str) : Composer :=
  { fromEmail := fromEmail
    to2 := []
    subject := []
    body := [[]]
    currentField := ComposerField.toField
    cursorPos := 0
    bodyLine := 0
    width := 0
    height := 0
    sending := false
    sent := false
    cancelled := false
    err := none }

/-- `ui.NewReplyComposerModelImpl`, vimail variant (internal/ui/composer.go
lines 49-54): recipient and a `"Re: "`-prefixed subject only; no quoted
body, focus left on the To field. -/
def NewReplyComposerModelImpl (fromEmail : Str) (originalMsg : Message) : Composer :=
  let composer := NewComposerModelImpl fromEmail
  { composer with
      to2 := originalMsg.fromAddr
      subject := ("Re: ".toList) ++ originalMsg.subject }

/-- `getCurrentFieldText` (internal/ui/composer.go). -/
def Composer.getCurrentFieldText (m : Composer) : Str :=
  match m.currentField with
  | ComposerField.toField => m.to2
  | ComposerField.subjectField => m.subject
  | ComposerField.bodyField =>
    if m.bodyLine < m.body.length then m.body.getD m.bodyLine [] else []

/-- `setCurrentFieldText` (internal/ui/composer.go). -/
def Composer.setCurrentFieldText (m : Composer) (text : Str) : Composer :=
  match m.currentField with
  | ComposerField.toField => { m with to2 := text }
  | ComposerField.subjectField => { m with subject := text }
  | ComposerField.bodyField =>
    if m.bodyLine < m.body.length then { m with body := m.body.set m.bodyLine text }
    else m

/-- `nextField` (internal/ui/composer.go): cycle To → Subject → Body → To,
then snap the cursor to the end of the newly focused field's text. -/
def Composer.nextField (m : Composer) : Composer :=
  let m :=
    match m.currentField with
    | ComposerField.toField => { m with currentField := ComposerField.subjectField }
    | ComposerField.subjectField => { m with currentField := ComposerField.bodyField }
    | ComposerField.bodyField => { m with currentField := ComposerField.toField }
  { m with cursorPos := m.getCurrentFieldText.length }

/-- `nextField(reverse)` of the veloci_mail composer: the vimail cycle, or
its reverse when `reverse` is set. -/
def Composer.nextFieldV (m : Composer) (reverse : Bool) : Composer :=
  let m :=
    if reverse then
      match m.currentField with
      | ComposerField.bodyField => { m with currentField := ComposerField.subjectField }
      | ComposerField.subjectField => { m with currentField := ComposerField.toField }
      | ComposerField.toField => { m with currentField := ComposerField.bodyField }
    else
      match m.currentField with
      | ComposerField.toField => { m with currentField := ComposerField.subjectField }
      | ComposerField.subjectField => { m with currentField := ComposerField.bodyField }
      | ComposerField.bodyField => { m with currentField := ComposerField.toField }
  { m with cursorPos := m.getCurrentFieldText.length }

/-- `handleEnter` (internal/ui/composer.go): in the body, split the current
line at the cursor and step onto the new line; elsewhere advance the field.
(The Go method returns `(m, nil)`; the always-`nil` command is dropped.) -/
def Composer.handleEnter (m : Composer) : Composer :=
  if m.currentField = ComposerField.bodyField then
    let currentLine := if m.bodyLine < m.body.length then m.body.getD m.bodyLine [] else []
    let beforeCursor := currentLine.take m.cursorPos
    let afterCursor := currentLine.drop m.cursorPos
    let body1 := m.body.set m.bodyLine beforeCursor
    let body2 := body1.take (m.bodyLine + 1) ++ [afterCursor] ++ body1.drop (m.bodyLine + 1)
    { m with body := body2, bodyLine := m.bodyLine + 1, cursorPos := 0 }
  else
    m.nextField

/-- `handleBackspace` (internal/ui/composer.go): delete left of the cursor,
or join the current body line onto the previous one when at column 0. -/
def Composer.handleBackspace (m : Composer) : Composer :=
  if m.currentField = ComposerField.bodyField then
    if m.cursorPos > 0 then
      let line := m.body.getD m.bodyLine []
      { m with
          body := m.body.set m.bodyLine (line.take (m.cursorPos - 1) ++ line.drop m.cursorPos)
          cursorPos := m.cursorPos - 1 }
    else if m.bodyLine > 0 then
      let prevLine := m.body.getD (m.bodyLine - 1) []
      let currentLine := m.body.getD m.bodyLine []
      let body1 := m.body.take m.bodyLine ++ m.body.drop (m.bodyLine + 1)
      let newBodyLine := m.bodyLine - 1
      { m with
          body := body1.set newBodyLine (prevLine ++ currentLine)
          bodyLine := newBodyLine
          cursorPos := prevLine.length }
    else m
  else
    let text := m.getCurrentFieldText
    if m.cursorPos > 0 then
      let m1 := m.setCurrentFieldText (text.take (m.cursorPos - 1) ++ text.drop m.cursorPos)
      { m1 with cursorPos := m.cursorPos - 1 }
    else m

/-- `handleCharInput` (internal/ui/composer.go): insert one character at the
cursor of the focused field. -/
def Composer.handleCharInput (m : Composer) (char : Char) : Composer :=
  if m.currentField = ComposerField.bodyField then
    let line := m.body.getD m.bodyLine []
    let newLine := line.take m.cursorPos ++ [char] ++ line.drop m.cursorPos
    { m with body := m.body.set m.bodyLine newLine, cursorPos := m.cursorPos + 1 }
  else
    let text := m.getCurrentFieldText
    let m1 := m.setCurrentFieldText (text.take m.cursorPos ++ [char] ++ text.drop m.cursorPos)
    { m1 with cursorPos := m.cursorPos + 1 }

/-- The `"left"` key case of the composer update (a named `handleLeft`
method in the veloci_mail composer, inline in vimail's; same code). -/
def Composer.handleLeft (m : Composer) : Composer :=
  if m.cursorPos > 0 then { m with cursorPos := m.cursorPos - 1 } else m

/-- The `"right"` key case (`handleRight` in the veloci_mail composer). -/
def Composer.handleRight (m : Composer) : Composer :=
  if m.cursorPos < m.getCurrentFieldText.length then { m with cursorPos := m.cursorPos + 1 } else m

/-- The `"up"` key case (`handleUp` in the veloci_mail composer): previous
body line, clamping the cursor to the shorter line. -/
def Composer.handleUp (m : Composer) : Composer :=
  if m.currentField = ComposerField.bodyField ∧ m.bodyLine > 0 then
    let newBodyLine := m.bodyLine - 1
    let newLineLen := (m.body.getD newBodyLine []).length
    { m with
        bodyLine := newBodyLine
        cursorPos := if m.cursorPos > newLineLen then newLineLen else m.cursorPos }
  else m

/-- The `"down"` key case (`handleDown` in the veloci_mail composer). -/
def Composer.handleDown (m : Composer) : Composer :=
  if m.currentField = ComposerField.bodyField ∧ (m.bodyLine : Int) < (m.body.length : Int) - 1 then
    let newBodyLine := m.bodyLine + 1
    let newLineLen := (m.body.getD newBodyLine []).length
    { m with
        bodyLine := newBodyLine
        cursorPos := if m.cursorPos > newLineLen then newLineLen else m.cursorPos }
  else m

/-- The event alphabet delivered by the bubbletea loop, restricted to the
message types this core produces or consumes: key presses (by their
`msg.String()` name), terminal resizes, and the two asynchronous
completion messages (`SendMessageMsg`, `LoadMessagesMsg`), plus the
`ErrorMsg`/`StatusMsg` pair declared by the app files. -/
inductive Msg
  | key (s : Str)
  | windowSize (width height : Int)
  | sendResult (success : Bool) (error : Option Str)
  | loadResult (messages : List Message) (error : Option Str)
  | errorMsg (error : Str)
  | statusMsg (message : Str)
deriving DecidableEq, Repr

/-- The follow-up commands (`tea.Cmd`) the embedded update functions emit.
`fail r` is the closure returning `SendMessageMsg{Success: false, Error: r}`
without touching the network; `send to subject body` is the closure that
calls `MailService.send` (`emailClient.SendMessage`); `refresh` is the
closure calling `emailClient.GetInboxMessages`; `none` is Go `nil`. -/
inductive Cmd
  | none
  | quit
  | fail (reason : Str)
  | send (dataTo dataSubject dataBody : Str)
  | refresh
deriving DecidableEq, Repr

/-- `sendMessage`, vimail variant (internal/ui/composer.go lines 374-396):
payload built with `strings.TrimSpace` on To and Subject and the body
lines joined by newlines; on validation failure the command returns a
failed `SendMessageMsg` and the state is untouched, otherwise `sending`
is set and the send command is emitted. -/
def Composer.sendMessage (validAddr : Str → Bool) (m : Composer) : Composer × Cmd :=
  let composeData : ComposeData :=
    { dataTo := trimSpace m.to2
      dataSubject := trimSpace m.subject
      dataBody := joinNl m.body }
  match composeData.validate validAddr with
  | some e => (m, Cmd.fail e)
  | none =>
    ({ m with sending := true },
     Cmd.send composeData.dataTo composeData.dataSubject composeData.dataBody)

/-- `ComposerModelImpl.Update`, vimail variant (internal/ui/composer.go
lines 65-135).  While `sending`, only `SendMessageMsg` is processed. -/
def Composer.update (validAddr : Str → Bool) (m : Composer) (msg : Msg) : Composer × Cmd :=
  if m.sending then
    match msg with
    | Msg.sendResult ok e =>
      ({ m with
          sending := false
          sent := if ok then true else m.sent
          err := if ok then m.err else e }, Cmd.none)
    | _ => (m, Cmd.none)
  else
    match msg with
    | Msg.key s =>
      if s = ("ctrl+c".toList) ∨ s = ("esc".toList) then ({ m with cancelled := true }, Cmd.none)
      else if s = ("ctrl+s".toList) then m.sendMessage validAddr
      else if s = ("tab".toList) then (m.nextField, Cmd.none)
      else if s = ("enter".toList) then (m.handleEnter, Cmd.none)
      else if s = ("backspace".toList) then (m.handleBackspace, Cmd.none)
      else if s = ("left".toList) then (m.handleLeft, Cmd.none)
      else if s = ("right".toList) then (m.handleRight, Cmd.none)
      else if s = ("up".toList) then (m.handleUp, Cmd.none)
      else if s = ("down".toList) then (m.handleDown, Cmd.none)
      else if s.length = 1 then (m.handleCharInput s.headI, Cmd.none)
      else (m, Cmd.none)
    | _ => (m, Cmd.none)

/-- `SetSize` of the composer. -/
def Composer.setSize (m : Composer) (width height : Int) : Composer :=
  { m with width := width, height := height }

namespace Veloci

/-- `NewComposerModelImpl`, veloci_mail variant (no client argument;
otherwise the same initial state). -/
def newComposer (fromEmail : Str) : Composer := NewComposerModelImpl fromEmail

/-- `NewReplyComposerModelImpl`, veloci_mail variant: recipient from the
original sender, subject through `PrepareReplySubject`, body seeded with
two blank lines, the attribution line, a blank line, and every original
body line quoted with `"> "`; focus starts on the body.  `fmtDate` stands
for `originalMsg.Date.Format("Mon, Jan 2, 2006 at 3:04 PM")`, a Go
standard-library call on the opaque date. -/
def NewReplyComposerModelImpl (fmtDate : Nat → Str) (fromEmail : Str)
    (originalMsg : Message) : Composer :=
  let composer := newComposer fromEmail
  let composer :=
    { composer with
        to2 := originalMsg.fromAddr
        subject := PrepareReplySubject originalMsg.subject }
  let quotedBody : List Str :=
    [[], [],
     ("On ".toList) ++ fmtDate originalMsg.date ++ (", ".toList) ++
       originalMsg.getDisplayFrom ++ (" wrote:".toList),
     []]
  let originalLines := splitNl originalMsg.body
  let quotedBody := quotedBody ++ originalLines.map (fun line => ("> ".toList) ++ line)
  { composer with body := quotedBody, currentField := ComposerField.bodyField }

/-- `sendMessage`, veloci_mail variant: identical to the vimail one except
that the subject goes through `email.SanitizeSubject`. -/
def sendMessage (validAddr : Str → Bool) (m : Composer) : Composer × Cmd :=
  let composeData : ComposeData :=
    { dataTo := trimSpace m.to2
      dataSubject := SanitizeSubject m.subject
      dataBody := joinNl m.body }
  match composeData.validate validAddr with
  | some e => (m, Cmd.fail e)
  | none =>
    ({ m with sending := true },
     Cmd.send composeData.dataTo composeData.dataSubject composeData.dataBody)

/-- `ComposerModelImpl.Update`, veloci_mail variant: adds `shift+tab`,
`home` and `end` to the vimail key set and dispatches to the same
handlers. -/
def composerUpdate (validAddr : Str → Bool) (m : Composer) (msg : Msg) : Composer × Cmd :=
  if m.sending then
    match msg with
    | Msg.sendResult ok e =>
      ({ m with
          sending := false
          sent := if ok then true else m.sent
          err := if ok then m.err else e }, Cmd.none)
    | _ => (m, Cmd.none)
  else
    match msg with
    | Msg.key s =>
      if s = ("ctrl+c".toList) ∨ s = ("esc".toList) then ({ m with cancelled := true }, Cmd.none)
      else if s = ("ctrl+s".toList) then sendMessage validAddr m
      else if s = ("tab".toList) ∨ s = ("shift+tab".toList) then
        (m.nextFieldV (s = ("shift+tab".toList)), Cmd.none)
      else if s = ("enter".toList) then (m.handleEnter, Cmd.none)
      else if s = ("backspace".toList) then (m.handleBackspace, Cmd.none)
      else if s = ("left".toList) then (m.handleLeft, Cmd.none)
      else if s = ("right".toList) then (m.handleRight, Cmd.none)
      else if s = ("up".toList) then (m.handleUp, Cmd.none)
      else if s = ("down".toList) then (m.handleDown, Cmd.none)
      else if s = ("home".toList) then ({ m with cursorPos := 0 }, Cmd.none)
      else if s = ("end".toList) then
        ({ m with cursorPos := m.getCurrentFieldText.length }, Cmd.none)
      else if s.length = 1 then (m.handleCharInput s.headI, Cmd.none)
      else (m, Cmd.none)
    | _ => (m, Cmd.none)

end Veloci

/-- `ui.InboxModelImpl` (internal/ui/inbox.go; same record in both
generations).  `selected` is a Go `int` that the clamping code lets go
negative transiently, so it is embedded as `Int`. -/
structure Inbox where
  messages : List Message
  selected : Int
  width : Int
  height : Int
  loading : Bool
  err : Option Str
deriving DecidableEq, Repr

/-- `NewInboxModelImpl` (internal/ui/inbox.go). -/
def NewInboxModelImpl : Inbox :=
  { messages := []
    selected := 0
    width := 0
    height := 0
    loading := false
    err := none }

/-- `InboxModelImpl.Update`, vimail variant (internal/ui/inbox.go lines
42-77): up/down move the selection under bounds guards (ignored while
loading); a `LoadMessagesMsg` replaces the list wholesale and clamps the
selection, or stores the error and leaves the list untouched.  The Go
method always returns a `nil` command. -/
def Inbox.update (m : Inbox) (msg : Msg) : Inbox :=
  match msg with
  | Msg.key s =>
    if m.loading then m
    else if s = ("up".toList) ∨ s = ("k".toList) then
      if m.selected > 0 then { m with selected := m.selected - 1 } else m
    else if s = ("down".toList) ∨ s = ("j".toList) then
      if m.selected < (m.messages.length : Int) - 1 then
        { m with selected := m.selected + 1 }
      else m
    else m
  | Msg.loadResult msgs e =>
    let m := { m with loading := false }
    match e with
    | some err => { m with err := some err }
    | none =>
      let m := { m with messages := msgs, err := none }
      let m :=
        if m.selected ≥ (msgs.length : Int) then
          { m with selected := (msgs.length : Int) - 1 }
        else m
      if m.selected < 0 then { m with selected := 0 } else m
  | _ => m

/-- `LoadMessages` (internal/ui/inbox.go): set the loading flag and emit
the asynchronous fetch command. -/
def Inbox.loadMessages (m : Inbox) : Inbox × Cmd :=
  ({ m with loading := true }, Cmd.refresh)

/-- `GetSelectedMessage` (internal/ui/inbox.go). -/
def Inbox.getSelectedMessage (m : Inbox) : Option Message :=
  if h : 0 ≤ m.selected ∧ m.selected < (m.messages.length : Int) then
    some (m.messages.get ⟨m.selected.toNat, by omega⟩)
  else none

/-- `SetSize` of the inbox. -/
def Inbox.setSize (m : Inbox) (width height : Int) : Inbox :=
  { m with width := width, height := height }

/-- `ui.ReaderModelImpl` (internal/ui/reader.go; the repository carries
only the veloci_mail reader). -/
structure Reader where
  message : Option Message
  width : Int
  height : Int
  scrollY : Int
  bodyLines : List Str
deriving DecidableEq, Repr

/-- `NewReaderModelImpl` (internal/ui/reader.go). -/
def NewReaderModelImpl : Reader :=
  { message := none
    width := 0
    height := 0
    scrollY := 0
    bodyLines := [] }

/-- The trailing-blank-line removal loop of `SetMessage`:
`for len > 0 && strings.TrimSpace(last) == "" { drop last }`. -/
def dropTrailingBlank (lines : List Str) : List Str :=
  (lines.reverse.dropWhile (fun l => (trimSpace l).isEmpty)).reverse

/-- `ReaderModelImpl.SetMessage` (internal/ui/reader.go lines 207-227):
store the message, reset the scroll, split the body on newlines, drop
trailing blank lines, and fall back to the `"(Empty message)"` placeholder
line when nothing remains. -/
def Reader.setMessage (m : Reader) (message : Option Message) : Reader :=
  let m := { m with message := message, scrollY := 0 }
  match message with
  | some msg =>
    let bodyLines := splitNl msg.body
    let bodyLines := dropTrailingBlank bodyLines
    if bodyLines = [] then { m with bodyLines := [("(Empty message)".toList)] }
    else { m with bodyLines := bodyLines }
  | none => { m with bodyLines := [] }

/-- `ReaderModelImpl.Update` (internal/ui/reader.go): vertical scrolling
with clamping; no-op when no message is set.  Always returns a `nil`
command in Go. -/
def Reader.update (m : Reader) (msg : Msg) : Reader :=
  match msg with
  | Msg.key s =>
    match m.message with
    | none => m
    | some _ =>
      if s = ("up".toList) ∨ s = ("k".toList) then
        if m.scrollY > 0 then { m with scrollY := m.scrollY - 1 } else m
      else if s = ("down".toList) ∨ s = ("j".toList) then
        let maxScroll := max ((m.bodyLines.length : Int) - (m.height - 8)) 0
        if m.scrollY < maxScroll then { m with scrollY := m.scrollY + 1 } else m
      else if s = ("home".toList) then { m with scrollY := 0 }
      else if s = ("end".toList) then
        { m with scrollY := max ((m.bodyLines.length : Int) - (m.height - 8)) 0 }
      else if s = ("pgup".toList) then
        { m with scrollY := max (m.scrollY - (m.height - 8)) 0 }
      else if s = ("pgdn".toList) then
        let pageSize := m.height - 8
        let maxScroll := max ((m.bodyLines.length : Int) - pageSize) 0
        { m with scrollY := min (m.scrollY + pageSize) maxScroll }
      else m
  | _ => m

/-- `ReaderModelImpl.SetSize` (internal/ui/reader.go): store the new size
and reclamp the scroll offset when a message is shown. -/
def Reader.setSize (m : Reader) (width height : Int) : Reader :=
  let m := { m with width := width, height := height }
  match m.message with
  | some _ =>
    let maxScroll := max ((m.bodyLines.length : Int) - (height - 8)) 0
    if m.scrollY > maxScroll then { m with scrollY := maxScroll } else m
  | none => m

/-- `ui.ViewMode` (internal/ui/app.go): the modal view tag.  In Go it is
an `int` with `InboxView = iota = 0`, so the zero value (the "unset"
`previousView`) is `inboxView`. -/
inductive ViewMode
  | inboxView
  | readerView
  | composerView
deriving DecidableEq, Repr

namespace Vimail

/-- `ui.Model` (internal/ui/app.go), the vimail application state.
`emailClient`, `config` and `ctx` are external capabilities; the only
datum the update function reads from them is the user's address
(`emailClient.GetUserEmail()`), kept here as `userEmail`. -/
structure Model where
  userEmail : Str
  viewMode : ViewMode
  width : Int
  height : Int
  ready : Bool
  inbox : Inbox
  reader : Reader
  composer : Composer
  previousView : ViewMode
deriving DecidableEq, Repr

/-- `NewModel` (internal/ui/app.go). -/
def NewModel (userEmail : Str) : Model :=
  { userEmail := userEmail
    viewMode := ViewMode.inboxView
    width := 0
    height := 0
    ready := false
    inbox := NewInboxModelImpl
    reader := NewReaderModelImpl
    composer := NewComposerModelImpl userEmail
    previousView := ViewMode.inboxView }

/-- The `// Update current view` tail of `Model.Update` (internal/ui/app.go
lines 126-156): delegate the event to the active sub-view; after a
composer update, a sent or cancelled outcome pops back to `previousView`,
and a sent one also triggers `inbox.Refresh()` (which sets the inbox
loading flag and emits the fetch command). -/
def delegate (validAddr : Str → Bool) (m : Model) (msg : Msg) : Model × List Cmd :=
  match m.viewMode with
  | ViewMode.inboxView => ({ m with inbox := m.inbox.update msg }, [Cmd.none])
  | ViewMode.readerView => ({ m with reader := m.reader.update msg }, [Cmd.none])
  | ViewMode.composerView =>
    let p := Composer.update validAddr m.composer msg
    let m1 := { m with composer := p.1 }
    if p.1.sent ∨ p.1.cancelled then
      let m2 := { m1 with viewMode := m1.previousView }
      if p.1.sent then
        let q := m2.inbox.loadMessages
        ({ m2 with inbox := q.1 }, [p.2, q.2])
      else (m2, [p.2])
    else (m1, [p.2])

/-- `Model.Update` (internal/ui/app.go lines 82-159).  The quit keys
return `tea.Quit` unconditionally; `esc`, `c` and `enter` adjust the mode
and (except for the early-return branches) fall through to sub-view
delegation, exactly as the Go `switch` does. -/
def Model.update (validAddr : Str → Bool) (m : Model) (msg : Msg) : Model × List Cmd :=
  match msg with
  | Msg.windowSize w h =>
    let m :=
      { m with
          width := w, height := h, ready := true
          inbox := m.inbox.setSize w (h - 3)
          reader := m.reader.setSize w (h - 3)
          composer := m.composer.setSize w (h - 3) }
    delegate validAddr m msg
  | Msg.key s =>
    if s = ("ctrl+c".toList) ∨ s = ("q".toList) then (m, [Cmd.quit])
    else if s = ("esc".toList) then
      let m :=
        if m.viewMode = ViewMode.readerView then { m with viewMode := ViewMode.inboxView }
        else if m.viewMode = ViewMode.composerView then { m with viewMode := m.previousView }
        else m
      delegate validAddr m msg
    else if s = ("c".toList) then
      if m.viewMode = ViewMode.inboxView then
        ({ m with
            previousView := ViewMode.inboxView
            viewMode := ViewMode.composerView
            composer := NewComposerModelImpl m.userEmail }, [])
      else delegate validAddr m msg
    else if s = ("enter".toList) then
      if m.viewMode = ViewMode.inboxView then
        match m.inbox.getSelectedMessage with
        | some selectedMsg =>
          ({ m with
              previousView := ViewMode.inboxView
              viewMode := ViewMode.readerView
              reader := m.reader.setMessage (some selectedMsg) }, [])
        | none => delegate validAddr m msg
      else delegate validAddr m msg
    else delegate validAddr m msg
  | _ => delegate validAddr m msg

end Vimail

namespace Veloci

/-- `InboxModelImpl.Update`, veloci_mail variant: the vimail key set plus
`home`, `end` and `ctrl+r` (manual refresh, which re-runs `LoadMessages`). -/
def inboxUpdate (m : Inbox) (msg : Msg) : Inbox × Cmd :=
  match msg with
  | Msg.key s =>
    if m.loading then (m, Cmd.none)
    else if s = ("up".toList) ∨ s = ("k".toList) then
      (if m.selected > 0 then { m with selected := m.selected - 1 } else m, Cmd.none)
    else if s = ("down".toList) ∨ s = ("j".toList) then
      (if m.selected < (m.messages.length : Int) - 1 then
        { m with selected := m.selected + 1 }
      else m, Cmd.none)
    else if s = ("home".toList) then ({ m with selected := 0 }, Cmd.none)
    else if s = ("end".toList) then
      (if m.messages.length > 0 then
        { m with selected := (m.messages.length : Int) - 1 }
      else m, Cmd.none)
    else if s = ("ctrl+r".toList) then m.loadMessages
    else (m, Cmd.none)
  | Msg.loadResult msgs e => (Inbox.update m (Msg.loadResult msgs e), Cmd.none)
  | _ => (m, Cmd.none)

/-- `ui.Model`, veloci_mail variant: the vimail fields plus a stored
`err` used by the `ErrorMsg` case. -/
structure Model where
  userEmail : Str
  viewMode : ViewMode
  width : Int
  height : Int
  ready : Bool
  err : Option Str
  inbox : Inbox
  reader : Reader
  composer : Composer
  previousView : ViewMode
deriving DecidableEq, Repr

/-- `NewModel`, veloci_mail variant. -/
def NewModel (userEmail : Str) : Model :=
  { userEmail := userEmail
    viewMode := ViewMode.inboxView
    width := 0
    height := 0
    ready := false
    err := none
    inbox := NewInboxModelImpl
    reader := NewReaderModelImpl
    composer := newComposer userEmail
    previousView := ViewMode.inboxView }

/-- The `// Update current view` tail of the veloci_mail `Model.Update`:
like the vimail one, but an `esc` key seen while delegating to the reader
additionally pops back to `previousView`. -/
def delegate (validAddr : Str → Bool) (m : Model) (msg : Msg) : Model × List Cmd :=
  match m.viewMode with
  | ViewMode.inboxView =>
    let p := inboxUpdate m.inbox msg
    ({ m with inbox := p.1 }, [p.2])
  | ViewMode.readerView =>
    let m1 := { m with reader := m.reader.update msg }
    let m2 :=
      if msg = Msg.key ("esc".toList) then { m1 with viewMode := m1.previousView } else m1
    (m2, [Cmd.none])
  | ViewMode.composerView =>
    let p := composerUpdate validAddr m.composer msg
    let m1 := { m with composer := p.1 }
    if p.1.sent ∨ p.1.cancelled then
      let m2 := { m1 with viewMode := m1.previousView }
      if p.1.sent then
        let q := m2.inbox.loadMessages
        ({ m2 with inbox := q.1 }, [p.2, q.2])
      else (m2, [p.2])
    else (m1, [p.2])

/-- `Model.Update`, veloci_mail variant (part_003 lines 97-208).  The quit
keys quit only from the inbox; from any other view they step back to
`previousView` (with the redundant zero-value guard of the source) and do
not quit.  `r` starts a reply composer for the selected message. -/
def Model.update (validAddr : Str → Bool) (fmtDate : Nat → Str) (m : Model) (msg : Msg) :
    Model × List Cmd :=
  match msg with
  | Msg.windowSize w h =>
    let m :=
      { m with
          width := w, height := h, ready := true
          inbox := m.inbox.setSize w (h - 4)
          reader := m.reader.setSize w (h - 4)
          composer := m.composer.setSize w (h - 4) }
    delegate validAddr m msg
  | Msg.key s =>
    if s = ("ctrl+c".toList) ∨ s = ("q".toList) then
      if m.viewMode = ViewMode.inboxView then (m, [Cmd.quit])
      else
        let vm := m.previousView
        let vm := if vm = ViewMode.inboxView then ViewMode.inboxView else vm
        ({ m with viewMode := vm }, [])
    else if s = ("c".toList) then
      if m.viewMode = ViewMode.inboxView then
        ({ m with
            previousView := ViewMode.inboxView
            viewMode := ViewMode.composerView
            composer := newComposer m.userEmail }, [])
      else delegate validAddr m msg
    else if s = ("r".toList) then
      if m.viewMode = ViewMode.inboxView then
        match m.inbox.getSelectedMessage with
        | some selectedMsg =>
          ({ m with
              previousView := ViewMode.inboxView
              viewMode := ViewMode.composerView
              composer := NewReplyComposerModelImpl fmtDate m.userEmail selectedMsg }, [])
        | none => delegate validAddr m msg
      else delegate validAddr m msg
    else if s = ("enter".toList) then
      if m.viewMode = ViewMode.inboxView then
        match m.inbox.getSelectedMessage with
        | some selectedMsg =>
          ({ m with
              previousView := ViewMode.inboxView
              viewMode := ViewMode.readerView
              reader := m.reader.setMessage (some selectedMsg) }, [])
        | none => delegate validAddr m msg
      else delegate validAddr m msg
    else delegate validAddr m msg
  | Msg.errorMsg e => ({ m with err := some e }, [])
  | Msg.statusMsg _ => (m, [])
  | _ => delegate validAddr m msg

end Veloci

/-- The composer buffer invariants of the spec: the body has at least one
line, the body cursor line is in range, and the cursor column is within
the focused field's current text. -/
def Composer.Inv (m : Composer) : Prop :=
  m.body ≠ [] ∧ m.bodyLine < m.body.length ∧ m.cursorPos ≤ m.getCurrentFieldText.length

instance (m : Composer) : Decidable m.Inv := by
  unfold Composer.Inv
  infer_instance

/-- The selection invariant of the spec: `0 ≤ selected < n`, or
`selected = 0` when the list is empty. -/
def Inbox.selInv (m : Inbox) : Prop :=
  (0 ≤ m.selected ∧ m.selected < (m.messages.length : Int)) ∨
    (m.messages.length = 0 ∧ m.selected = 0)

instance (m : Inbox) : Decidable m.selInv := by
  unfold Inbox.selInv
  infer_instance

/-- A sample address-syntax test used to instantiate `validAddr` in
witnesses: accept exactly the strings containing an `@`. -/
def validAddrW : Str → Bool := fun s => decide ('@' ∈ s)

/-- A sample date formatter used to instantiate `fmtDate` in witnesses. -/
def fmtDateW : Nat → Str := fun _ => "Mon, Jan 1, 2026 at 3:04 PM".toList

/-- A sample message. -/
def msgW : Message :=
  { id := "1".toList
    threadId := "t1".toList
    fromAddr := "alice@x.com".toList
    toAddr := "me@x.com".toList
    subject := "Hello world".toList
    date := 0
    body := "hi\nthere".toList
    snippet := []
    labels := []
    unread := true }

/-- A sample message whose subject already carries a `Re: ` prefix. -/
def origW : Message :=
  { id := "2".toList
    threadId := "t2".toList
    fromAddr := "alice@x.com".toList
    toAddr := "me@x.com".toList
    subject := "Re: Hello".toList
    date := 0
    body := "hi\nthere".toList
    snippet := []
    labels := []
    unread := false }

/-- A sample composer whose To field is blank. -/
def emptyToW : Composer := NewComposerModelImpl ("me@x.com".toList)

/-- A sample composer mid-send. -/
def sendingW : Composer :=
  { NewComposerModelImpl ("me@x.com".toList) with
      to2 := "bob@x.com".toList
      subject := "hi".toList
      body := ["first".toList]
      sending := true }

/-- A sample composer editing the body. -/
def bodyW : Composer :=
  { NewComposerModelImpl ("me@x.com".toList) with
      currentField := ComposerField.bodyField
      body := ["alpha".toList, "beta".toList]
      bodyLine := 0
      cursorPos := 2 }

/-- A sample composer whose subject holds a run of two spaces. -/
def subjW : Composer :=
  { NewComposerModelImpl ("me@x.com".toList) with
      to2 := "x@y.z".toList
      subject := "a  b".toList
      body := ["hi".toList] }

/-- A sample vimail application model sitting in Reader mode. -/
def vimailReaderW : Vimail.Model :=
  { Vimail.NewModel ("me@x.com".toList) with
      viewMode := ViewMode.readerView
      previousView := ViewMode.inboxView }

/-- A sample veloci_mail application model sitting in Reader mode. -/
def velociReaderW : Veloci.Model :=
  { Veloci.NewModel ("me@x.com".toList) with
      viewMode := ViewMode.readerView
      previousView := ViewMode.inboxView }

theorem getD_set_self {α : Type} (l : List α) (n : Nat) (a d : α) (h : n < l.length) :
    (l.set n a).getD n d = a := by
  rw [List.getD_eq_getElem _ _ (by simpa using h)]
  simp

theorem getD_eq_get_of_lt {α : Type} (l : List α) (n : Nat) (d : α) (h : n < l.length) :
    l.getD n d = l.get ⟨n, h⟩ := List.getD_eq_get l d h

theorem trimSpace_infixOf (s : Str) : trimSpace s <:+: s := by
  unfold trimSpace
  have h1 : s.dropWhile isGoSpace <:+ s := List.dropWhile_suffix _
  have h2 : (s.dropWhile isGoSpace).reverse.dropWhile isGoSpace <:+
      (s.dropWhile isGoSpace).reverse := List.dropWhile_suffix _
  have h3 : ((s.dropWhile isGoSpace).reverse.dropWhile isGoSpace).reverse <+:
      s.dropWhile isGoSpace := by
    have := List.reverse_prefix.mpr h2
    simpa using this
  exact h3.isInfix.trans h1.isInfix

theorem mem_trimSpace {c : Char} {s : Str} (h : c ∈ trimSpace s) : c ∈ s :=
  (trimSpace_infixOf s).subset h

theorem hasDoubleSpace_iff (s : Str) : hasDoubleSpace s = true ↔ [' ', ' '] <:+: s := by
  induction s using hasDoubleSpace.induct with
  | case1 a b rest hab =>
    rw [hasDoubleSpace, if_pos hab]
    simp only [true_iff]
    exact ⟨[], rest, by simp [hab.1, hab.2]⟩
  | case2 a b rest hab ih =>
    rw [hasDoubleSpace, if_neg hab, ih]
    constructor
    · intro h
      exact List.infix_cons h
    · intro h
      rcases List.infix_cons_iff.mp h with hp | hi
      · exfalso
        obtain ⟨t, ht⟩ := hp
        simp only [List.cons_append, List.nil_append, List.cons.injEq] at ht
        exact hab ⟨ht.1.symm, ht.2.1.symm⟩
      · exact hi
  | case3 t h =>
    match t, h with
    | [], _ =>
      simp only [hasDoubleSpace, Bool.false_eq_true, false_iff]
      intro hinf
      obtain ⟨u, v, huv⟩ := hinf
      simp at huv
    | [a], _ =>
      simp only [hasDoubleSpace, Bool.false_eq_true, false_iff]
      intro hinf
      obtain ⟨u, v, huv⟩ := hinf
      have hlen := congrArg List.length huv
      simp only [List.length_append, List.length_cons, List.length_nil] at hlen
      omega
    | a :: b :: rest, hh => exact absurd rfl (hh a b rest)

theorem collapseSpaces_noDouble (s : Str) : hasDoubleSpace (collapseSpaces s) = false := by
  induction s using collapseSpaces.induct with
  | case1 s h ih =>
    rw [collapseSpaces, dif_pos h]
    exact ih
  | case2 s h =>
    rw [collapseSpaces, dif_neg h]
    simpa using h

theorem hasDoubleSpace_trimSpace {s : Str} (h : hasDoubleSpace s = false) :
    hasDoubleSpace (trimSpace s) = false := by
  by_contra hc
  have ht : hasDoubleSpace (trimSpace s) = true := by
    cases hd : hasDoubleSpace (trimSpace s) with
    | false => exact absurd hd hc
    | true => rfl
  have : [' ', ' '] <:+: s := ((hasDoubleSpace_iff _).mp ht).trans (trimSpace_infixOf s)
  rw [(hasDoubleSpace_iff s).mpr this] at h
  cases h

theorem mem_replaceDoubleSpace {c : Char} :
    ∀ {s : Str}, c ∈ replaceDoubleSpace s → c ∈ s := by
  intro s
  induction s using replaceDoubleSpace.induct with
  | case1 => simp [replaceDoubleSpace]
  | case2 a => simp [replaceDoubleSpace]
  | case3 a b rest hab ih =>
    rw [replaceDoubleSpace, if_pos hab]
    intro h
    rcases List.mem_cons.mp h with h | h
    · subst h
      simp [hab.1]
    · simp [ih h]
  | case4 a b rest hab ih =>
    rw [replaceDoubleSpace, if_neg hab]
    intro h
    rcases List.mem_cons.mp h with h | h
    · simp [h]
    · simpa using Or.inr (ih h)

theorem mem_collapseSpaces {c : Char} {s : Str} (h : c ∈ collapseSpaces s) : c ∈ s := by
  induction s using collapseSpaces.induct with
  | case1 s hd ih =>
    rw [collapseSpaces, dif_pos hd] at h
    exact mem_replaceDoubleSpace (ih h)
  | case2 s hd =>
    rw [collapseSpaces, dif_neg hd] at h
    exact h

theorem mem_replaceAllChar_elim {c old new : Char} {s : Str}
    (h : c ∈ replaceAllChar old new s) : c = new ∨ (c ∈ s ∧ c ≠ old) := by
  unfold replaceAllChar at h
  obtain ⟨a, ha, hfa⟩ := List.mem_map.mp h
  by_cases hao : a = old
  · subst hao
    rw [if_pos rfl] at hfa
    exact Or.inl hfa.symm
  · rw [if_neg hao] at hfa
    subst hfa
    exact Or.inr ⟨ha, hao⟩

theorem SanitizeSubject_no_control (s : Str) :
    '\n' ∉ SanitizeSubject s ∧ '\r' ∉ SanitizeSubject s ∧ '\t' ∉ SanitizeSubject s := by
  unfold SanitizeSubject
  refine ⟨fun h => ?_, fun h => ?_, fun h => ?_⟩
  · have h1 := mem_collapseSpaces (mem_trimSpace h)
    rcases mem_replaceAllChar_elim h1 with h2 | ⟨h2, _⟩
    · exact absurd h2 (by decide)
    rcases mem_replaceAllChar_elim h2 with h3 | ⟨h3, _⟩
    · exact absurd h3 (by decide)
    rcases mem_replaceAllChar_elim h3 with h4 | ⟨_, h4⟩
    · exact absurd h4 (by decide)
    · exact absurd rfl h4
  · have h1 := mem_collapseSpaces (mem_trimSpace h)
    rcases mem_replaceAllChar_elim h1 with h2 | ⟨h2, _⟩
    · exact absurd h2 (by decide)
    rcases mem_replaceAllChar_elim h2 with h3 | ⟨_, h3⟩
    · exact absurd h3 (by decide)
    · exact absurd rfl h3
  · have h1 := mem_collapseSpaces (mem_trimSpace h)
    rcases mem_replaceAllChar_elim h1 with h2 | ⟨_, h2⟩
    · exact absurd h2 (by decide)
    · exact absurd rfl h2

theorem SanitizeSubject_noDouble (s : Str) :
    hasDoubleSpace (SanitizeSubject s) = false := by
  unfold SanitizeSubject
  exact hasDoubleSpace_trimSpace (collapseSpaces_noDouble _)

/-- C9: `setMessage` stores the message, resets the scroll offset to 0,
splits the body on newlines, removes all trailing whitespace-only lines,
and falls back to the single placeholder line `"(Empty message)"` when
nothing remains, so the displayed line list is never empty. -/
theorem reader_setMessage_spec (r : Reader) (msg : Message) :
    (r.setMessage (some msg)).message = some msg ∧
    (r.setMessage (some msg)).scrollY = 0 ∧
    (r.setMessage (some msg)).bodyLines ≠ [] ∧
    ((dropTrailingBlank (splitNl msg.body) ≠ [] ∧
        (r.setMessage (some msg)).bodyLines = dropTrailingBlank (splitNl msg.body)) ∨
      (dropTrailingBlank (splitNl msg.body) = [] ∧
        (r.setMessage (some msg)).bodyLines = [("(Empty message)".toList)])) := by
  unfold Reader.setMessage
  by_cases h : dropTrailingBlank (splitNl msg.body) = []
  · simp [h]
  · simp [h]

/-- C10: `GetShortSubject` returns the subject unchanged when it fits in
`maxLength`; otherwise, when `maxLength ≥ 3`, it returns the first
`maxLength - 3` characters followed by `"..."` — exactly `maxLength`
characters; and when `maxLength < 3` the truncating branch slices at a
negative index, so the operation is not total there (modelled `none`). -/
theorem getShortSubject_spec (m : Message) (maxLength : Nat) :
    (m.subject.length ≤ maxLength → m.getShortSubject maxLength = some m.subject) ∧
    (maxLength < m.subject.length → 3 ≤ maxLength →
      m.getShortSubject maxLength =
        some (m.subject.take (maxLength - 3) ++ ("...".toList)) ∧
      (m.subject.take (maxLength - 3) ++ ("...".toList)).length = maxLength) ∧
    (maxLength < m.subject.length → maxLength < 3 →
      m.getShortSubject maxLength = none) := by
  unfold Message.getShortSubject
  refine ⟨fun hle => ?_, fun hgt h3 => ?_, fun hgt h3 => ?_⟩
  · rw [if_pos hle]
  · rw [if_neg (by omega), if_neg (by omega)]
    refine ⟨rfl, ?_⟩
    have : (m.subject.take (maxLength - 3)).length = maxLength - 3 := by
      rw [List.length_take]
      omega
    have hdots : ("...".toList).length = 3 := by decide
    simp only [List.length_append, this, hdots]
    omega
  · rw [if_neg (by omega), if_pos h3]

/-- Witness for C10 at concrete inputs exercising all three branches. -/
theorem getShortSubject_spec_witness :
    msgW.getShortSubject 20 = some ("Hello world".toList) ∧
    msgW.getShortSubject 8 = some (("Hello world".toList).take 5 ++ ("...".toList)) ∧
    msgW.getShortSubject 2 = none :=
  ⟨(getShortSubject_spec msgW 20).1 (by decide),
   ((getShortSubject_spec msgW 8).2.1 (by decide) (by decide)).1,
   (getShortSubject_spec msgW 2).2.2 (by decide) (by decide)⟩

theorem inbox_update_selInv (m : Inbox) (msg : Msg) (h : m.selInv) :
    (m.update msg).selInv := by
  unfold Inbox.selInv at h ⊢
  unfold Inbox.update
  match msg with
  | Msg.key s =>
    dsimp only
    split_ifs <;> (try dsimp only at *) <;> omega
  | Msg.loadResult msgs e =>
    match e with
    | some err => dsimp only; omega
    | none =>
      dsimp only
      split_ifs <;> (try dsimp only at *) <;> omega
  | Msg.windowSize w hgt => dsimp only; omega
  | Msg.sendResult ok err => dsimp only; omega
  | Msg.errorMsg err => dsimp only; omega
  | Msg.statusMsg t => dsimp only; omega

/-- C6: starting from the initial inbox, after any sequence of events
(selection moves, refresh completions and anything else the update
consumes), the selected index satisfies `0 ≤ selected < n`, or
`selected = 0` when the list is empty. -/
theorem inbox_selected_in_bounds (events : List Msg) :
    (events.foldl Inbox.update NewInboxModelImpl).selInv := by
  have gen : ∀ (es : List Msg) (m : Inbox), m.selInv → (es.foldl Inbox.update m).selInv := by
    intro es
    induction es with
    | nil => intro m h; exact h
    | cons e es ih =>
      intro m h
      exact ih _ (inbox_update_selInv m e h)
  exact gen events NewInboxModelImpl (by simp [Inbox.selInv, NewInboxModelImpl])

/-- C5: while `sending` is set, the composer update ignores every event
except `SendMessageMsg`: no command is emitted, any non-completion event
leaves the state identical, and the completion event only clears the flag
and records the sent/failed outcome. -/
theorem composer_sending_blocks_input (validAddr : Str → Bool) (m : Composer) (msg : Msg)
    (h : m.sending = true) :
    (Composer.update validAddr m msg).2 = Cmd.none ∧
    ((∀ ok e, msg ≠ Msg.sendResult ok e) → (Composer.update validAddr m msg).1 = m) ∧
    (∀ ok e, msg = Msg.sendResult ok e →
      (Composer.update validAddr m msg).1 =
        { m with
            sending := false
            sent := if ok then true else m.sent
            err := if ok then m.err else e }) := by
  unfold Composer.update
  rw [if_pos h]
  match msg with
  | Msg.key s =>
    exact ⟨rfl, fun _ => rfl, fun ok e hc => by cases hc⟩
  | Msg.sendResult ok e =>
    refine ⟨rfl, fun hne => absurd rfl (hne ok e), fun ok2 e2 hc => ?_⟩
    cases hc
    rfl
  | Msg.loadResult msgs e =>
    exact ⟨rfl, fun _ => rfl, fun ok e hc => by cases hc⟩
  | Msg.windowSize w hgt =>
    exact ⟨rfl, fun _ => rfl, fun ok e hc => by cases hc⟩
  | Msg.errorMsg e =>
    exact ⟨rfl, fun _ => rfl, fun ok e hc => by cases hc⟩
  | Msg.statusMsg t =>
    exact ⟨rfl, fun _ => rfl, fun ok e hc => by cases hc⟩

/-- Witness for C5: a keystroke arriving mid-send changes nothing, and the
completion event clears the flag. -/
theorem composer_sending_blocks_input_witness :
    (Composer.update validAddrW sendingW (Msg.key ("a".toList))).1 = sendingW ∧
    (Composer.update validAddrW sendingW (Msg.key ("a".toList))).2 = Cmd.none ∧
    (Composer.update validAddrW sendingW (Msg.sendResult true none)).1 =
      { sendingW with sending := false, sent := true } := by
  have h1 := composer_sending_blocks_input validAddrW sendingW (Msg.key ("a".toList)) (by decide)
  have h2 := composer_sending_blocks_input validAddrW sendingW (Msg.sendResult true none) (by decide)
  refine ⟨h1.2.1 (fun ok e hc => by cases hc), h1.1, ?_⟩
  rw [h2.2.2 true none rfl]
  simp

theorem Composer.update_sendKey (validAddr : Str → Bool) (m : Composer)
    (h : m.sending = false) :
    Composer.update validAddr m (Msg.key ("ctrl+s".toList)) = m.sendMessage validAddr := by
  unfold Composer.update
  rw [h]
  simp only [Bool.false_eq_true, if_false]
  rw [if_neg (by decide), if_pos trivial]

/-- C2: pressing the send key on a form whose trimmed recipient is empty,
or lacks an `@`, or fails the address syntax test, or whose trimmed
subject is empty, or whose joined body is empty, leaves the composer
state unchanged (in particular `sending` stays clear) and emits only the
failure command — never the network send command.  `validAddr` may be any
sound model of `mail.ParseAddress` (accepting only strings containing
an `@`). -/
theorem composer_validation_gate (validAddr : Str → Bool) (m : Composer)
    (hsound : ∀ s, validAddr s = true → '@' ∈ s)
    (hns : m.sending = false)
    (hbad : trimSpace m.to2 = [] ∨ ('@' ∉ trimSpace m.to2) ∨
      validAddr (trimSpace m.to2) = false ∨ trimSpace m.subject = [] ∨ joinNl m.body = []) :
    (Composer.update validAddr m (Msg.key ("ctrl+s".toList))).1 = m ∧
    ∃ r, (Composer.update validAddr m (Msg.key ("ctrl+s".toList))).2 = Cmd.fail r := by
  rw [Composer.update_sendKey validAddr m hns]
  have hval : ∃ e,
      ComposeData.validate validAddr
        { dataTo := trimSpace m.to2
          dataSubject := trimSpace m.subject
          dataBody := joinNl m.body } = some e := by
    unfold ComposeData.validate
    dsimp only
    split_ifs with h1 h2 h3 h4
    · exact ⟨_, rfl⟩
    · exact ⟨_, rfl⟩
    · exact ⟨_, rfl⟩
    · exact ⟨_, rfl⟩
    · exfalso
      have hvt : validAddr (trimSpace m.to2) = true := by
        cases hv : validAddr (trimSpace m.to2) with
        | false => exact absurd hv h2
        | true => rfl
      rcases hbad with hb | hb | hb | hb | hb
      · exact h1 hb
      · exact hb (hsound _ hvt)
      · exact h2 hb
      · exact h3 hb
      · exact h4 hb
  obtain ⟨e, he⟩ := hval
  unfold Composer.sendMessage
  dsimp only
  rw [he]
  exact ⟨rfl, e, rfl⟩

/-- Witness for C2: a fresh composer with a blank To field. -/
theorem composer_validation_gate_witness :
    (Composer.update validAddrW emptyToW (Msg.key ("ctrl+s".toList))).1 = emptyToW ∧
    ∃ r, (Composer.update validAddrW emptyToW (Msg.key ("ctrl+s".toList))).2 = Cmd.fail r :=
  composer_validation_gate validAddrW emptyToW
    (fun s h => by simpa [validAddrW] using h)
    (by decide)
    (Or.inl (by decide))


theorem handleLeft_inv (m : Composer) (h : m.Inv) : m.handleLeft.Inv := by
  obtain ⟨fe, to2, subj, body, cf, cp, bl, w, ht, sd, st, cc, er⟩ := m
  unfold Composer.Inv Composer.handleLeft Composer.getCurrentFieldText at *
  by_cases hc : cp > 0
  · rw [if_pos hc]
    cases cf <;> (try dsimp only at *) <;> obtain ⟨h1, h2, h3⟩ := h
    · exact ⟨h1, h2, by omega⟩
    · exact ⟨h1, h2, by omega⟩
    · refine ⟨h1, h2, ?_⟩
      split_ifs at h3 ⊢ <;> omega
  · rw [if_neg hc]
    exact h

theorem handleRight_inv (m : Composer) (h : m.Inv) : m.handleRight.Inv := by
  obtain ⟨fe, to2, subj, body, cf, cp, bl, w, ht, sd, st, cc, er⟩ := m
  unfold Composer.Inv Composer.handleRight Composer.getCurrentFieldText at *
  by_cases hc : cp < List.length (match cf with
    | ComposerField.toField => to2
    | ComposerField.subjectField => subj
    | ComposerField.bodyField => if bl < body.length then body.getD bl [] else [])
  · rw [if_pos hc]
    cases cf <;> (try dsimp only at *) <;> obtain ⟨h1, h2, h3⟩ := h
    · exact ⟨h1, h2, by omega⟩
    · exact ⟨h1, h2, by omega⟩
    · refine ⟨h1, h2, ?_⟩
      split_ifs at hc ⊢ <;> omega
  · rw [if_neg hc]
    exact h

theorem nextField_inv (m : Composer) (h : m.Inv) : m.nextField.Inv := by
  obtain ⟨fe, to2, subj, body, cf, cp, bl, w, ht, sd, st, cc, er⟩ := m
  unfold Composer.Inv Composer.nextField Composer.getCurrentFieldText at *
  obtain ⟨h1, h2, _⟩ := h
  cases cf <;> (try dsimp only) <;> exact ⟨h1, h2, le_refl _⟩

theorem handleUp_inv (m : Composer) (h : m.Inv) : m.handleUp.Inv := by
  obtain ⟨fe, to2, subj, body, cf, cp, bl, w, ht, sd, st, cc, er⟩ := m
  unfold Composer.Inv Composer.handleUp at *
  obtain ⟨h1, h2, h3⟩ := h
  (try dsimp only at h1 h2 h3)
  by_cases hc : cf = ComposerField.bodyField ∧ bl > 0
  · rw [if_pos hc]
    obtain ⟨hf, hl⟩ := hc
    subst hf
    unfold Composer.getCurrentFieldText at h3 ⊢
    dsimp only at h3 ⊢
    refine ⟨h1, by omega, ?_⟩
    rw [if_pos (show bl - 1 < body.length by omega)]
    split_ifs <;> omega
  · rw [if_neg hc]
    exact ⟨h1, h2, h3⟩

theorem handleDown_inv (m : Composer) (h : m.Inv) : m.handleDown.Inv := by
  obtain ⟨fe, to2, subj, body, cf, cp, bl, w, ht, sd, st, cc, er⟩ := m
  unfold Composer.Inv Composer.handleDown at *
  obtain ⟨h1, h2, h3⟩ := h
  (try dsimp only at h1 h2 h3)
  by_cases hc : cf = ComposerField.bodyField ∧ (bl : Int) < (body.length : Int) - 1
  · rw [if_pos hc]
    obtain ⟨hf, hl⟩ := hc
    subst hf
    unfold Composer.getCurrentFieldText at h3 ⊢
    dsimp only at h3 ⊢
    refine ⟨h1, by omega, ?_⟩
    rw [if_pos (show bl + 1 < body.length by omega)]
    split_ifs <;> omega
  · rw [if_neg hc]
    exact ⟨h1, h2, h3⟩

theorem handleEnter_inv (m : Composer) (h : m.Inv) : m.handleEnter.Inv := by
  obtain ⟨fe, to2, subj, body, cf, cp, bl, w, ht, sd, st, cc, er⟩ := m
  unfold Composer.Inv Composer.handleEnter at *
  obtain ⟨h1, h2, h3⟩ := h
  (try dsimp only at h1 h2 h3)
  by_cases hf : cf = ComposerField.bodyField
  · rw [if_pos hf]
    subst hf
    dsimp only
    rw [if_pos h2]
    have hlen :
        ((body.set bl ((body.getD bl []).take cp)).take (bl + 1) ++
          [(body.getD bl []).drop cp] ++
          (body.set bl ((body.getD bl []).take cp)).drop (bl + 1)).length =
          body.length + 1 := by
      simp only [List.length_append, List.length_take, List.length_drop,
        List.length_set, List.length_cons, List.length_nil]
      omega
    refine ⟨List.length_pos.mp (by omega), by omega, ?_⟩
    unfold Composer.getCurrentFieldText
    dsimp only
    exact Nat.zero_le _
  · rw [if_neg hf]
    exact nextField_inv _ ⟨h1, h2, h3⟩

theorem handleCharInput_inv (m : Composer) (char : Char) (h : m.Inv) :
    (m.handleCharInput char).Inv := by
  obtain ⟨fe, to2, subj, body, cf, cp, bl, w, ht, sd, st, cc, er⟩ := m
  unfold Composer.Inv Composer.handleCharInput Composer.setCurrentFieldText at *
  obtain ⟨h1, h2, h3⟩ := h
  (try dsimp only at h1 h2 h3)
  unfold Composer.getCurrentFieldText at h3 ⊢
  by_cases hf : cf = ComposerField.bodyField
  · rw [if_pos hf]
    subst hf
    dsimp only at h3 ⊢
    rw [if_pos h2] at h3
    rw [if_pos (by rw [List.length_set]; exact h2)]
    rw [getD_set_self _ _ _ _ h2]
    refine ⟨?_, by rw [List.length_set]; exact h2, ?_⟩
    · intro hnil
      have := congrArg List.length hnil
      rw [List.length_set] at this
      simp at this
      subst this
      simp at h2
    · simp only [List.length_append, List.length_take, List.length_drop,
        List.length_cons, List.length_nil]
      omega
  · rw [if_neg hf]
    cases cf
    · dsimp only at h3 ⊢
      refine ⟨h1, h2, ?_⟩
      simp only [List.length_append, List.length_take, List.length_drop,
        List.length_cons, List.length_nil]
      omega
    · dsimp only at h3 ⊢
      refine ⟨h1, h2, ?_⟩
      simp only [List.length_append, List.length_take, List.length_drop,
        List.length_cons, List.length_nil]
      omega
    · exact absurd rfl hf

theorem handleBackspace_inv (m : Composer) (h : m.Inv) : m.handleBackspace.Inv := by
  obtain ⟨fe, to2, subj, body, cf, cp, bl, w, ht, sd, st, cc, er⟩ := m
  unfold Composer.Inv Composer.handleBackspace Composer.setCurrentFieldText at *
  obtain ⟨h1, h2, h3⟩ := h
  (try dsimp only at h1 h2 h3)
  unfold Composer.getCurrentFieldText at h3 ⊢
  by_cases hf : cf = ComposerField.bodyField
  · rw [if_pos hf]
    subst hf
    dsimp only at h3 ⊢
    rw [if_pos h2] at h3
    by_cases hc : cp > 0
    · rw [if_pos hc]
      refine ⟨?_, by rw [List.length_set]; exact h2, ?_⟩
      · exact List.length_pos.mp (by rw [List.length_set]; omega)
      · rw [if_pos (by rw [List.length_set]; exact h2)]
        rw [getD_set_self _ _ _ _ h2]
        simp only [List.length_append, List.length_take, List.length_drop]
        omega
    · rw [if_neg hc]
      by_cases hb : bl > 0
      · rw [if_pos hb]
        have hlen1 : (body.take bl ++ body.drop (bl + 1)).length = body.length - 1 := by
          simp only [List.length_append, List.length_take, List.length_drop]
          omega
        have hbl : bl - 1 < (body.take bl ++ body.drop (bl + 1)).length := by omega
        refine ⟨?_, ?_, ?_⟩
        · exact List.length_pos.mp (by rw [List.length_set]; omega)
        · rw [List.length_set]
          exact hbl
        · rw [if_pos (by rw [List.length_set]; exact hbl)]
          rw [getD_set_self _ _ _ _ hbl]
          simp only [List.length_append]
          omega
      · rw [if_neg hb]
        refine ⟨h1, h2, ?_⟩
        rw [if_pos h2]
        exact h3
  · rw [if_neg hf]
    cases cf
    · dsimp only at h3 ⊢
      by_cases hc : cp > 0
      · rw [if_pos hc]
        refine ⟨h1, h2, ?_⟩
        simp only [List.length_append, List.length_take, List.length_drop]
        omega
      · rw [if_neg hc]
        exact ⟨h1, h2, h3⟩
    · dsimp only at h3 ⊢
      by_cases hc : cp > 0
      · rw [if_pos hc]
        refine ⟨h1, h2, ?_⟩
        simp only [List.length_append, List.length_take, List.length_drop]
        omega
      · rw [if_neg hc]
        exact ⟨h1, h2, h3⟩
    · exact absurd rfl hf

theorem Inv_of_fields (m m2 : Composer) (hb : m2.body = m.body) (hl : m2.bodyLine = m.bodyLine)
    (hc : m2.cursorPos = m.cursorPos) (hf : m2.currentField = m.currentField)
    (ht : m2.to2 = m.to2) (hs : m2.subject = m.subject) (h : m.Inv) : m2.Inv := by
  unfold Composer.Inv Composer.getCurrentFieldText at h ⊢
  rw [hb, hl, hc, hf, ht, hs]
  exact h

theorem sendMessage_inv (validAddr : Str → Bool) (m : Composer) (h : m.Inv) :
    (m.sendMessage validAddr).1.Inv := by
  unfold Composer.sendMessage
  dsimp only
  cases hval : ComposeData.validate validAddr
      { dataTo := trimSpace m.to2, dataSubject := trimSpace m.subject, dataBody := joinNl m.body } with
  | some e =>
    dsimp only
    exact h
  | none =>
    dsimp only
    exact Inv_of_fields _ _ rfl rfl rfl rfl rfl rfl h

set_option maxHeartbeats 2000000 in
theorem composer_update_inv (validAddr : Str → Bool) (m : Composer) (msg : Msg) (h : m.Inv) :
    (Composer.update validAddr m msg).1.Inv := by
  unfold Composer.update
  by_cases hs : m.sending = true
  · rw [if_pos hs]
    match msg with
    | Msg.key s => exact h
    | Msg.sendResult ok e => exact Inv_of_fields _ _ rfl rfl rfl rfl rfl rfl h
    | Msg.loadResult msgs e => exact h
    | Msg.windowSize w ht => exact h
    | Msg.errorMsg e => exact h
    | Msg.statusMsg t => exact h
  · rw [if_neg hs]
    match msg with
    | Msg.key s =>
      dsimp only
      split_ifs with h1 h2 h3 h4 h5 h6 h7 h8 h9 h10
      · exact Inv_of_fields _ _ rfl rfl rfl rfl rfl rfl h
      · exact sendMessage_inv validAddr m h
      · exact nextField_inv m h
      · exact handleEnter_inv m h
      · exact handleBackspace_inv m h
      · exact handleLeft_inv m h
      · exact handleRight_inv m h
      · exact handleUp_inv m h
      · exact handleDown_inv m h
      · exact handleCharInput_inv m _ h
      · exact h
    | Msg.sendResult ok e => exact h
    | Msg.loadResult msgs e => exact h
    | Msg.windowSize w ht => exact h
    | Msg.errorMsg e => exact h
    | Msg.statusMsg t => exact h

/-- C4: every composer state reachable from a fresh composer through any
sequence of events satisfies the buffer invariants: the body has at least
one line, `bodyLine` is a valid line index, and the cursor column never
exceeds the length of the focused field's current text (for the body, the
line at `bodyLine`); so no editing operation leaves the buffer empty or
the cursor out of bounds. -/
theorem composer_buffer_invariants (validAddr : Str → Bool) (fromEmail : Str) (events : List Msg) :
    Composer.Inv
      (events.foldl (fun c e => (Composer.update validAddr c e).1)
        (NewComposerModelImpl fromEmail)) := by
  have gen : ∀ (es : List Msg) (c : Composer), c.Inv →
      Composer.Inv (es.foldl (fun c e => (Composer.update validAddr c e).1) c) := by
    intro es
    induction es with
    | nil => intro c hc; exact hc
    | cons e es ih =>
      intro c hc
      exact ih _ (composer_update_inv validAddr c e hc)
  refine gen events _ ?_
  unfold Composer.Inv NewComposerModelImpl Composer.getCurrentFieldText
  dsimp only
  exact ⟨by simp, by simp, by simp⟩

theorem set_getD_self {α : Type} (l : List α) (n : Nat) (d : α) (h : n < l.length) :
    l.set n (l.getD n d) = l := by
  induction l generalizing n with
  | nil => simp at h
  | cons a t ih =>
    cases n with
    | zero => simp
    | succ k =>
      simp only [List.getD_cons_succ, List.set_cons_succ, List.cons.injEq, true_and]
      exact ih k (by simpa using h)

theorem take_append_cons_self {α : Type} (t : List α) (x : α) (u : List α) :
    (t ++ x :: u).take (t.length + 1) = t ++ [x] := by
  induction t with
  | nil => simp
  | cons a s ih => simp [ih]

theorem drop_append_cons_self {α : Type} (t : List α) (x : α) (u : List α) :
    (t ++ x :: u).drop (t.length + 1) = u := by
  induction t with
  | nil => simp
  | cons a s ih => simpa using ih

theorem getD_append_self {α : Type} (t u : List α) (d : α) :
    (t ++ u).getD t.length d = u.getD 0 d := by
  induction t with
  | nil => simp
  | cons a s ih => simpa using ih

theorem set_append_self {α : Type} (t u : List α) (y : α) :
    (t ++ u).set t.length y = t ++ u.set 0 y := by
  induction t with
  | nil => simp
  | cons a s ih => simp [ih]

theorem enter_backspace_body (body : List Str) (bl cp : Nat) (hl : bl < body.length)
    (hc : cp ≤ (body.getD bl []).length) :
    (((body.set bl ((body.getD bl []).take cp)).take (bl + 1) ++
        [(body.getD bl []).drop cp] ++
        (body.set bl ((body.getD bl []).take cp)).drop (bl + 1)).take (bl + 1) ++
      ((body.set bl ((body.getD bl []).take cp)).take (bl + 1) ++
        [(body.getD bl []).drop cp] ++
        (body.set bl ((body.getD bl []).take cp)).drop (bl + 1)).drop (bl + 1 + 1)).set bl
      ((((body.set bl ((body.getD bl []).take cp)).take (bl + 1) ++
          [(body.getD bl []).drop cp] ++
          (body.set bl ((body.getD bl []).take cp)).drop (bl + 1)).getD bl []) ++
        (((body.set bl ((body.getD bl []).take cp)).take (bl + 1) ++
          [(body.getD bl []).drop cp] ++
          (body.set bl ((body.getD bl []).take cp)).drop (bl + 1)).getD (bl + 1) [])) = body ∧
    (((body.set bl ((body.getD bl []).take cp)).take (bl + 1) ++
        [(body.getD bl []).drop cp] ++
        (body.set bl ((body.getD bl []).take cp)).drop (bl + 1)).getD bl []).length = cp := by
  set line := body.getD bl [] with hline
  set P := body.take bl with hP
  set D := body.drop (bl + 1) with hD
  have hPlen : P.length = bl := by
    rw [hP, List.length_take]
    omega
  have hX : body.set bl (line.take cp) = P ++ line.take cp :: D :=
    List.set_eq_take_cons_drop _ hl
  have htake : (body.set bl (line.take cp)).take (bl + 1) = P ++ [line.take cp] := by
    rw [hX, ← hPlen, take_append_cons_self]
  have hdrop : (body.set bl (line.take cp)).drop (bl + 1) = D := by
    rw [hX, ← hPlen, drop_append_cons_self]
  have hbody2 : (body.set bl (line.take cp)).take (bl + 1) ++ [line.drop cp] ++
      (body.set bl (line.take cp)).drop (bl + 1) = P ++ line.take cp :: line.drop cp :: D := by
    rw [htake, hdrop]
    simp
  rw [hbody2]
  have hprev : (P ++ line.take cp :: line.drop cp :: D).getD bl [] = line.take cp := by
    rw [← hPlen, getD_append_self]
    simp
  have hcur : (P ++ line.take cp :: line.drop cp :: D).getD (bl + 1) [] = line.drop cp := by
    have : P ++ line.take cp :: line.drop cp :: D = (P ++ [line.take cp]) ++ line.drop cp :: D := by
      simp
    rw [this]
    have hlen2 : (P ++ [line.take cp]).length = bl + 1 := by
      simp [hPlen]
    rw [← hlen2, getD_append_self]
    simp
  have htake2 : (P ++ line.take cp :: line.drop cp :: D).take (bl + 1) = P ++ [line.take cp] := by
    rw [← hPlen, take_append_cons_self]
  have hdrop2 : (P ++ line.take cp :: line.drop cp :: D).drop (bl + 1 + 1) = D := by
    have : P ++ line.take cp :: line.drop cp :: D = (P ++ [line.take cp]) ++ line.drop cp :: D := by
      simp
    have hlen2 : (P ++ [line.take cp]).length = bl + 1 := by
      simp [hPlen]
    rw [this, ← hlen2, drop_append_cons_self]
  rw [hprev, hcur, htake2, hdrop2]
  constructor
  · have hjoin : line.take cp ++ line.drop cp = line := List.take_append_drop cp line
    have hset : ((P ++ [line.take cp]) ++ D).set bl (line.take cp ++ line.drop cp) =
        P ++ line :: D := by
      have happ : (P ++ [line.take cp]) ++ D = P ++ line.take cp :: D := by
        simp
      rw [happ, ← hPlen, set_append_self]
      simp [hjoin]
    rw [hset]
    have hdec : body = P ++ line :: D := by
      conv_lhs => rw [← set_getD_self body bl [] hl]
      exact List.set_eq_take_cons_drop _ hl
    exact hdec.symm
  · rw [List.length_take]
    omega

/-- C7: in the Body field, pressing Enter (split at the cursor) and then
Backspace at the resulting cursor position restores the buffer lines and
the cursor (line, column) exactly. -/
theorem enter_backspace_inverse (m : Composer)
    (hf : m.currentField = ComposerField.bodyField)
    (hl : m.bodyLine < m.body.length)
    (hc : m.cursorPos ≤ (m.body.getD m.bodyLine []).length) :
    m.handleEnter.handleBackspace = m := by
  obtain ⟨fe, to2, subj, body, cf, cp, bl, w, ht, sd, st, cc, er⟩ := m
  dsimp only at hf hl hc
  subst hf
  have H := enter_backspace_body body bl cp hl hc
  unfold Composer.handleEnter Composer.handleBackspace
  dsimp only
  rw [if_pos rfl, if_pos hl]
  dsimp only
  rw [if_pos rfl]
  rw [if_neg (by omega), if_pos (Nat.succ_pos bl)]
  simp only [Composer.mk.injEq, true_and, and_true]
  exact ⟨H.1, H.2, by omega⟩

/-- Witness for C7 at a concrete buffer. -/
theorem enter_backspace_inverse_witness :
    bodyW.handleEnter.handleBackspace = bodyW :=
  enter_backspace_inverse bodyW (by decide) (by decide) (by decide)

/-- C3 counterexample: the vimail `NewReplyComposerModelImpl`
(internal/ui/composer.go lines 49-54) prefixes `"Re: "` unconditionally —
replying to a message whose subject is `"Re: Hello"` yields
`"Re: Re: Hello"` — seeds no quoted body, and leaves focus on the To
field, contradicting the claim as stated. -/
theorem reply_seeding_cex :
    (NewReplyComposerModelImpl ("me@x.com".toList) origW).subject = ("Re: Re: Hello".toList) ∧
    (NewReplyComposerModelImpl ("me@x.com".toList) origW).body = [[]] ∧
    (NewReplyComposerModelImpl ("me@x.com".toList) origW).currentField = ComposerField.toField := by
  refine ⟨by decide, by decide, by decide⟩

/-- C3 (amended): the veloci_mail `NewReplyComposerModelImpl` seeds the
reply exactly as claimed: recipient is the original sender; the subject
is the whitespace-trimmed original subject with `"Re: "` prepended unless
it already carries a case-insensitive `"re:"` prefix (so `"Re: Hello"`
stays `"Re: Hello"`); the body is two blank lines, the attribution line
`"On <formatted date>, <sender display name> wrote:"`, a blank line, then
every original body line prefixed with `"> "`; focus starts on Body. -/
theorem reply_seeding (fmtDate : Nat → Str) (fromEmail : Str) (orig : Message) :
    (Veloci.NewReplyComposerModelImpl fmtDate fromEmail orig).to2 = orig.fromAddr ∧
    (Veloci.NewReplyComposerModelImpl fmtDate fromEmail orig).subject =
      (if List.isPrefixOf ("re:".toList) (toLowerStr (trimSpace orig.subject)) then
        trimSpace orig.subject
      else ("Re: ".toList) ++ trimSpace orig.subject) ∧
    (Veloci.NewReplyComposerModelImpl fmtDate fromEmail orig).body =
      [[], [],
       ("On ".toList) ++ fmtDate orig.date ++ (", ".toList) ++
         orig.getDisplayFrom ++ (" wrote:".toList),
       []] ++ (splitNl orig.body).map (fun line => ("> ".toList) ++ line) ∧
    (Veloci.NewReplyComposerModelImpl fmtDate fromEmail orig).currentField =
      ComposerField.bodyField := by
  unfold Veloci.NewReplyComposerModelImpl Veloci.newComposer NewComposerModelImpl
    PrepareReplySubject
  refine ⟨rfl, rfl, rfl, rfl⟩

/-- C8 counterexample: the vimail `sendMessage` (internal/ui/composer.go
lines 374-379) only whitespace-trims the subject.  With subject
`"a  b"` (a run of two spaces, typable in the composer) the submission
payload carries `"a  b"` unchanged, while the sanitization the claim
describes (`SanitizeSubject`) would produce `"a b"`. -/
theorem payload_cex :
    (Composer.update validAddrW subjW (Msg.key ("ctrl+s".toList))).2 =
      Cmd.send ("x@y.z".toList) ("a  b".toList) ("hi".toList) ∧
    SanitizeSubject ("a  b".toList) = ("a b".toList) := by
  constructor
  · decide
  · show trimSpace (collapseSpaces _) = _
    rw [collapseSpaces]
    rw [dif_pos (by decide)]
    rw [collapseSpaces]
    rw [dif_neg (by decide)]
    decide

/-- C8 (amended): pressing send builds the payload with the recipient
whitespace-trimmed and the body lines joined with newlines in both
composer generations; the subject is sanitized by `SanitizeSubject`
(newlines, carriage returns and tabs become spaces, space runs collapse,
ends trimmed — the sanitized subject provably contains no such control
character and no double space) in the veloci_mail `sendMessage`, but is
only whitespace-trimmed in the vimail `sendMessage`. -/
theorem payload_built (validAddr : Str → Bool) (m : Composer) (s : Str) :
    ((∃ r, (Veloci.sendMessage validAddr m).2 = Cmd.fail r) ∨
      (Veloci.sendMessage validAddr m).2 =
        Cmd.send (trimSpace m.to2) (SanitizeSubject m.subject) (joinNl m.body)) ∧
    ((∃ r, (Composer.sendMessage validAddr m).2 = Cmd.fail r) ∨
      (Composer.sendMessage validAddr m).2 =
        Cmd.send (trimSpace m.to2) (trimSpace m.subject) (joinNl m.body)) ∧
    ('\n' ∉ SanitizeSubject s ∧ '\r' ∉ SanitizeSubject s ∧ '\t' ∉ SanitizeSubject s) ∧
    hasDoubleSpace (SanitizeSubject s) = false := by
  refine ⟨?_, ?_, SanitizeSubject_no_control s, SanitizeSubject_noDouble s⟩
  · unfold Veloci.sendMessage
    dsimp only
    cases hval : ComposeData.validate validAddr
        { dataTo := trimSpace m.to2
          dataSubject := SanitizeSubject m.subject
          dataBody := joinNl m.body } with
    | some e =>
      dsimp only
      exact Or.inl ⟨e, rfl⟩
    | none =>
      dsimp only
      exact Or.inr rfl
  · unfold Composer.sendMessage
    dsimp only
    cases hval : ComposeData.validate validAddr
        { dataTo := trimSpace m.to2
          dataSubject := trimSpace m.subject
          dataBody := joinNl m.body } with
    | some e =>
      dsimp only
      exact Or.inl ⟨e, rfl⟩
    | none =>
      dsimp only
      exact Or.inr rfl

/-- C1 counterexample: in the vimail `Model.Update` (internal/ui/app.go
lines 94-104) the quit keys return `tea.Quit` from every mode — a single
`q` keystroke in Reader mode terminates the application, contradicting
the claim as stated. -/
theorem quit_key_cex :
    vimailReaderW.viewMode = ViewMode.readerView ∧
    Vimail.Model.update validAddrW vimailReaderW (Msg.key ("q".toList)) =
      (vimailReaderW, [Cmd.quit]) :=
  ⟨rfl, rfl⟩

/-- C1 (amended): in the veloci_mail `Model.Update` (the two-stage
variant) the quit keys terminate only from the inbox; in any other mode
they emit no quit command and set the mode back to `previousView` (whose
unset zero value is the inbox).  In the vimail `Model.Update` the quit
keys terminate the application from every mode. -/
theorem quit_key_behavior (validAddr : Str → Bool) (fmtDate : Nat → Str)
    (mv : Veloci.Model) (ma : Vimail.Model) (s : Str)
    (hs : s = ("q".toList) ∨ s = ("ctrl+c".toList)) :
    (mv.viewMode = ViewMode.inboxView →
      Veloci.Model.update validAddr fmtDate mv (Msg.key s) = (mv, [Cmd.quit])) ∧
    (mv.viewMode ≠ ViewMode.inboxView →
      Veloci.Model.update validAddr fmtDate mv (Msg.key s) =
        ({ mv with viewMode := mv.previousView }, [])) ∧
    Vimail.Model.update validAddr ma (Msg.key s) = (ma, [Cmd.quit]) := by
  have hcond : s = ("ctrl+c".toList) ∨ s = ("q".toList) := by
    rcases hs with h | h
    · exact Or.inr h
    · exact Or.inl h
  refine ⟨?_, ?_, ?_⟩
  · intro hv
    unfold Veloci.Model.update
    dsimp only
    rw [if_pos hcond, if_pos hv]
  · intro hv
    unfold Veloci.Model.update
    dsimp only
    rw [if_pos hcond, if_neg hv]
    by_cases hp : mv.previousView = ViewMode.inboxView
    · rw [if_pos hp, hp]
    · rw [if_neg hp]
  · unfold Vimail.Model.update
    dsimp only
    rw [if_pos hcond]

/-- Witness for C1 from Reader mode in both variants. -/
theorem quit_key_behavior_witness :
    Veloci.Model.update validAddrW fmtDateW velociReaderW (Msg.key ("q".toList)) =
      ({ velociReaderW with viewMode := velociReaderW.previousView }, []) ∧
    Vimail.Model.update validAddrW vimailReaderW (Msg.key ("q".toList)) =
      (vimailReaderW, [Cmd.quit]) := by
  have h := quit_key_behavior validAddrW fmtDateW velociReaderW vimailReaderW
    ("q".toList) (Or.inl rfl)
  exact ⟨h.2.1 (by decide), h.2.2⟩
